import Mathlib

/-!
Shallow embedding of the draft-session reconciliation engine of
HelpMyScheduling (`src/bot.js`, primary variant), together with its
conflict-detection and reminder-scheduling satellites.

Conventions used throughout:
* A JavaScript string-or-null field value is an `Option String`; JS
  truthiness of such a value (`null`, `undefined` and `""` are falsy) is
  the Boolean `truthy`.
* A sparse fragment object (`parsed.updates`) is its `Object.entries`
  list: key/value pairs whose values may be `null` (`none`).
* Millisecond timestamps (`Date.now()` and friends) are `Int`, so that
  subtraction behaves as in JavaScript.
* `async` database functions areembedded as pure functions taking the
  rows their SQL queries would return (the queries' `WHERE` filters are
  reproduced inside the Lean definition where the claim depends on them).
-/

/-- JS truthiness of a string-or-null value: `null`/`undefined` and `""` are falsy. -/
def truthy : Option String → Bool
  | none => false
  | some s => s != ""

/-- JS `x ? x : default` style coercion on a string-or-null value:
keeps the value exactly when it is truthy. -/
def truthyVal : Option String → Option String
  | none => none
  | some s => if s = "" then none else some s

/-- The draft field record created by `makeEmptyDraft` (src/bot.js:540-549):
`{task, date, start_time, end_time, location, type}`. -/
@[ext]
structure Draft where
  task : Option String
  date : Option String
  start_time : Option String
  end_time : Option String
  location : Option String
  type : Option String
deriving Repr, DecidableEq

/-- `makeEmptyDraft` (src/bot.js:540): every field starts as `null`. -/
def makeEmptyDraft : Draft :=
  { task := none, date := none, start_time := none, end_time := none,
    location := none, type := none }

/-- `draftIsCompleteEnough` (src/bot.js:551-553): `!!draft.task && !!draft.date`. -/
def draftIsCompleteEnough (draft : Draft) : Bool :=
  truthy draft.task && truthy draft.date

/-- An `updates` fragment, modelled as the `Object.entries` list of the
JS object: each entry is a key plus a possibly-`null` value. -/
abbrev Updates := List (String × Option String)

/-- JS property read `updates.k`: the value stored under key `k`
(an object holds at most one entry per key; absent reads as `undefined`). -/
def getProp (u : Updates) (k : String) : Option String :=
  match u.lookup k with
  | some v => v
  | none => none

/-- `shouldStartNewDraftFromUpdate` (src/bot.js:574-590). -/
def shouldStartNewDraftFromUpdate (currentDraft : Draft) (updates : Updates)
    (overwriteIntent : Bool) : Bool :=
  if overwriteIntent then false
  else
    let newDate := getProp updates "date"
    let hasDateAlready := truthy currentDraft.date
    let hasOtherInfo := truthy currentDraft.task || truthy currentDraft.start_time ||
      truthy currentDraft.location
    if truthy newDate && hasDateAlready && hasOtherInfo &&
        decide (newDate ≠ currentDraft.date) then
      true
    else if truthy (getProp updates "task") && truthy currentDraft.task &&
        truthy currentDraft.date && decide (getProp updates "task" ≠ currentDraft.task) then
      true
    else
      false

/-- One field assignment of `mergeDraft`'s loop body (src/bot.js:599-603):
`if (!draft[k]) draft[k] = v; else if (allowOverwrite) draft[k] = v;`. -/
def mergeVal (allowOverwrite : Bool) (cur : Option String) (v : String) : Option String :=
  if !truthy cur then some v
  else if allowOverwrite then some v
  else cur

/-- One iteration of `mergeDraft`'s `for (const [k, v] of Object.entries(updates))`
loop (src/bot.js:595-604): `null` values are skipped (`v == null`), and keys
that are not fields of the draft record are skipped (`!(k in draft)`). -/
def mergeStep (allowOverwrite : Bool) (draft : Draft) (kv : String × Option String) : Draft :=
  match kv.2 with
  | none => draft
  | some v =>
    if kv.1 = "task" then { draft with task := mergeVal allowOverwrite draft.task v }
    else if kv.1 = "date" then { draft with date := mergeVal allowOverwrite draft.date v }
    else if kv.1 = "start_time" then
      { draft with start_time := mergeVal allowOverwrite draft.start_time v }
    else if kv.1 = "end_time" then
      { draft with end_time := mergeVal allowOverwrite draft.end_time v }
    else if kv.1 = "location" then
      { draft with location := mergeVal allowOverwrite draft.location v }
    else if kv.1 = "type" then { draft with type := mergeVal allowOverwrite draft.type v }
    else draft

/-- `mergeDraft` (src/bot.js:592-606): `allowOverwrite = overwriteIntent || overwriteNext`,
then the field loop over the fragment's entries. -/
def mergeDraft (draft : Draft) (updates : Updates) (overwriteIntent : Bool)
    (overwriteNext : Bool) : Draft :=
  updates.foldl (mergeStep (overwriteIntent || overwriteNext)) draft

/-- The six keys of the draft record: `k in draft` holds exactly for these. -/
def draftKeys : List String :=
  ["task", "date", "start_time", "end_time", "location", "type"]

/-- The successive values the fragment's entry list supplies for field `k`. -/
def fieldVals (k : String) (u : Updates) : List String :=
  u.filterMap (fun kv => if kv.1 = k then kv.2 else none)

/-- The fold `mergeDraft` performs on one draft field, isolated. -/
def mergeList (allow : Bool) (cur : Option String) (vs : List String) : Option String :=
  vs.foldl (mergeVal allow) cur

/-- Fold of a draft sequence of non-destructive merges
(`overwrite_intent = false`, no pending `overwriteNext`). -/
def seqMergeND (d : Draft) (us : List Updates) : Draft :=
  us.foldl (fun d u => mergeDraft d u false false) d

/-- A session draft object (src/bot.js:1979-1985):
`{id, draft, state, updatedAt, overwriteNext}`; `state` is the string
`'collecting'` or `'awaiting_confirm'`. -/
structure DraftObj where
  id : String
  draft : Draft
  state : String
  updatedAt : Int
  overwriteNext : Bool
deriving Repr, DecidableEq

/-- The per-conversation session record created by `getSession`
(src/bot.js:113-118). -/
structure Session where
  drafts : List DraftObj
  updatedAt : Int
  editingEventId : Option Nat
  editingField : Option String
  addingClass : Bool
deriving Repr, DecidableEq

/-- `DRAFT_TTL_MS` (src/bot.js:100): 90 seconds. -/
def DRAFT_TTL_MS : Int := 90 * 1000

/-- `CONFIRM_TTL_MS` (src/bot.js:101): 5 minutes. -/
def CONFIRM_TTL_MS : Int := 5 * 60 * 1000

/-- The draft filter of `pruneExpiredDrafts` (src/bot.js:123-126): a draft is
kept when its idle time is within its state's TTL. -/
def keepDraft (t : Int) (d : DraftObj) : Bool :=
  let ttl := if d.state = "awaiting_confirm" then CONFIRM_TTL_MS else DRAFT_TTL_MS
  decide (t - d.updatedAt ≤ ttl)

/-- The per-session part of a prune pass (src/bot.js:123-126):
`session.drafts = session.drafts.filter(...)`. -/
def pruneSessionDrafts (t : Int) (s : Session) : Session :=
  { s with drafts := s.drafts.filter (keepDraft t) }

/-- `pruneExpiredDrafts` (src/bot.js:120-132) at instant `t`: filter each
session's drafts by TTL, then delete every session left with no drafts whose
own `updatedAt` is idle longer than `DRAFT_TTL_MS`. The `sessions` map is
modelled as an insertion-ordered association list. -/
def pruneExpiredDrafts (t : Int) (sessions : List (String × Session)) :
    List (String × Session) :=
  (sessions.map fun p => (p.1, pruneSessionDrafts t p.2)).filter
    fun p => !(p.2.drafts.isEmpty && decide (t - p.2.updatedAt > DRAFT_TTL_MS))

/-- The merge-and-check step the message handler performs on the selected
collecting draft (src/bot.js:2000-2015): merge the fragment, consume
`overwriteNext`, refresh `updatedAt`, then set state `'awaiting_confirm'`
exactly when the merged draft is complete enough. -/
def applyUpdatesStep (dobj : DraftObj) (updates : Updates) (overwriteIntent : Bool)
    (now : Int) : DraftObj :=
  let merged := mergeDraft dobj.draft updates overwriteIntent dobj.overwriteNext
  let d1 : DraftObj :=
    { dobj with draft := merged, overwriteNext := false, updatedAt := now }
  if draftIsCompleteEnough merged then { d1 with state := "awaiting_confirm" } else d1

/-- Concrete fixture: a `collecting` draft object last touched at 0 ms. -/
def staleCollecting : DraftObj :=
  { id := "1", draft := makeEmptyDraft, state := "collecting", updatedAt := 0,
    overwriteNext := false }

/-- Concrete fixture: an `awaiting_confirm` draft object last touched at 0 ms. -/
def staleAwaiting : DraftObj :=
  { staleCollecting with id := "2", state := "awaiting_confirm" }

/-- Concrete fixture: a session holding one stale `collecting` and one stale
`awaiting_confirm` draft. -/
def prune91Session : Session :=
  { drafts := [staleCollecting, staleAwaiting], updatedAt := 0, editingEventId := none,
    editingField := none, addingClass := false }

/-- Concrete fixture: an idle session with no drafts that still holds a
field-edit pointer. -/
def pointerOnlySession : Session :=
  { drafts := [], updatedAt := 0, editingEventId := some 7, editingField := some "title",
    addingClass := false }

/-- Concrete fixture: a session holding a field-edit pointer plus one fresh
enough draft. -/
def pointerDraftSession : Session :=
  { drafts := [staleAwaiting], updatedAt := 0, editingEventId := some 7,
    editingField := some "title", addingClass := false }

/-- A row of the `events` table as `SELECT *` returns it (src/bot.js:46-58);
nullable columns are `Option String`. (`recurrence_id`/`created_at` are
never read by the embedded code and are omitted.) -/
structure EventRow where
  id : Nat
  chat_id : String
  task : Option String
  date : String
  start_time : Option String
  end_time : Option String
  location : Option String
  type : Option String
deriving Repr, DecidableEq

/-- A row of the `school_timetable` table (src/bot.js:78-87); `start_time`
and `end_time` are `NOT NULL`. -/
structure TimetableRow where
  id : Nat
  chat_id : String
  subject : String
  day_of_week : Nat
  start_time : String
  end_time : String
  location : Option String
deriving Repr, DecidableEq

/-- A conflict item pushed by `checkConflicts` (src/bot.js:415-439): either a
spread event row tagged `source: 'event'` (which carries the row's
`chat_id`), or a record built from a timetable entry tagged
`source: 'school_timetable'` (which has no `chat_id`). -/
structure ConflictItem where
  id : Nat
  chat_id : Option String
  task : Option String
  date : String
  start_time : Option String
  end_time : Option String
  location : Option String
  type : Option String
  source : String
deriving Repr, DecidableEq

/-- Decimal digit test on a character (code points 48-57). -/
def isDigitChar (c : Char) : Bool :=
  decide (48 ≤ c.toNat) && decide (c.toNat ≤ 57)

/-- Numeric value of an all-digit character group; `none` for any other
shape (where JS `Number` would give `NaN`, except `Number("") = 0`,
handled by the caller's default). -/
def charsToNat : List Char → Option Nat
  | [] => none
  | cs =>
    if cs.all isDigitChar then
      some (cs.foldl (fun n c => n * 10 + (c.toNat - 48)) 0)
    else none

/-- `split(':')` on a character list, structurally recursive so that it
evaluates inside the kernel. -/
def splitCols : List Char → List (List Char)
  | [] => [[]]
  | c :: rest =>
    match splitCols rest with
    | [] => [[]]
    | g :: gs => if c = ':' then [] :: g :: gs else (c :: g) :: gs

/-- `timeToMinutes` (src/bot.js:208-211): `time.split(':')` then
`h * 60 + m` on the first two groups. Defined for the `"H:M"` shapes the
program stores; shapes that would be `NaN` in JS fall back to 0 and occur
in no claim. -/
def timeToMinutes (time : String) : Nat :=
  match (splitCols time.data).map (fun g => (charsToNat g).getD 0) with
  | h :: m :: _ => h * 60 + m
  | _ => 0

/-- The conflict item made from an event row: `{...event, source: 'event'}`
(src/bot.js:416-419). -/
def eventConflictItem (ev : EventRow) : ConflictItem :=
  { id := ev.id, chat_id := some ev.chat_id, task := ev.task, date := ev.date,
    start_time := ev.start_time, end_time := ev.end_time, location := ev.location,
    type := ev.type, source := "event" }

/-- The conflict item made from a school-timetable entry
(src/bot.js:429-438). -/
def timetableConflictItem (date : String) (en : TimetableRow) : ConflictItem :=
  { id := en.id, chat_id := none, task := some en.subject, date := date,
    start_time := some en.start_time, end_time := some en.end_time,
    location := en.location, type := some "class", source := "school_timetable" }

/-- The event-overlap test of `checkConflicts` (src/bot.js:411-421): default
the missing end to start + 60 and compare half-open intervals. -/
def eventOverlaps (newStart newEnd : Nat) (ev : EventRow) : Bool :=
  let eventStart := timeToMinutes (ev.start_time.getD "")
  let eventEnd := match truthyVal ev.end_time with
    | some e => timeToMinutes e
    | none => eventStart + 60
  decide (newStart < eventEnd) && decide (eventStart < newEnd)

/-- The timetable-overlap test of `checkConflicts` (src/bot.js:424-428). -/
def timetableOverlaps (newStart newEnd : Nat) (en : TimetableRow) : Bool :=
  decide (newStart < timeToMinutes en.end_time) && decide (timeToMinutes en.start_time < newEnd)

/-- `checkConflicts` (src/bot.js:392-443). `events` stands for the whole
`events` table (the SQL `WHERE chat_id = ? AND date = ? AND start_time IS
NOT NULL` filter is applied here); `schoolEntries` stands for the rows
`getSchoolTimetableForDate` returns, i.e. this chat's timetable entries
whose weekday matches `date`. -/
def checkConflicts (chatId : String) (events : List EventRow)
    (schoolEntries : List TimetableRow) (date : String)
    (startTime endTime : Option String) : List ConflictItem :=
  match truthyVal startTime with
  | none => []
  | some st =>
    let rows := events.filter fun e =>
      decide (e.chat_id = chatId) && decide (e.date = date) && e.start_time.isSome
    let newStart := timeToMinutes st
    let newEnd := match truthyVal endTime with
      | some e => timeToMinutes e
      | none => newStart + 60
    (rows.filter (eventOverlaps newStart newEnd)).map eventConflictItem ++
      (schoolEntries.filter (timetableOverlaps newStart newEnd)).map (timetableConflictItem date)

/-- Concrete fixture: a committed event from 10:00 to 11:00. -/
def eventTenToEleven : EventRow :=
  { id := 1, chat_id := "c", task := some "Standup", date := "2025-04-10",
    start_time := some "10:00", end_time := some "11:00", location := none, type := none }

/-- The reminder job key `${event.id}-${offset.minutes}` (src/bot.js:467). -/
def mkJobKey (eventId : Nat) (offsetMinutes : Nat) : String :=
  toString eventId ++ "-" ++ toString offsetMinutes

/-- The three reminder lead times in minutes (src/bot.js:456-460):
1 day = 1440, 6 hours = 360, and 30 minutes. -/
def reminderOffsets : List Nat := [1440, 360, 30]

/-- `reminderJobs.set(jobKey, job)` on the registry, modelled as an
insertion-ordered association list whose value is the firing instant:
replace in place when the key exists, append otherwise. -/
def setJob (jobs : List (String × Int)) (k : String) (v : Int) : List (String × Int) :=
  if jobs.any (fun p => decide (p.1 = k)) then
    jobs.map (fun p => if p.1 = k then (k, v) else p)
  else jobs ++ [(k, v)]

/-- `reminderJobs.has(k)`: whether a job is registered under key `k`. -/
def hasJob (jobs : List (String × Int)) (k : String) : Bool :=
  jobs.any (fun p => decide (p.1 = k))

/-- `scheduleReminder` (src/bot.js:448-482). `parseDateTime date st` models
the host-library call `new Date(`date`T`st`:00).getTime()` (the event's
naive local start instant in ms); `now` models `new Date()` read at
scheduling time; each lead time strictly in the future registers a job
under `mkJobKey event.id offset`, the rest are skipped. -/
def scheduleReminder (parseDateTime : String → String → Int) (now : Int)
    (jobs : List (String × Int)) (ev : EventRow) : List (String × Int) :=
  match truthyVal ev.start_time with
  | none => jobs
  | some st =>
    let eventMs := parseDateTime ev.date st
    reminderOffsets.foldl
      (fun js (off : Nat) =>
        let reminderTime := eventMs - (off : Int) * 60 * 1000
        if reminderTime > now then setJob js (mkJobKey ev.id off) reminderTime else js)
      jobs

/-- Concrete fixture: an event whose start instant will be placed 10 minutes
after scheduling time. -/
def eventInTenMinutes : EventRow :=
  { id := 8, chat_id := "c", task := some "Soon", date := "2025-04-10",
    start_time := some "14:00", end_time := none, location := none, type := none }

/-- Concrete fixture: an event whose start instant will be placed 2 days
after scheduling time. -/
def eventInTwoDays : EventRow :=
  { id := 9, chat_id := "c", task := some "Later", date := "2025-04-12",
    start_time := some "14:00", end_time := none, location := none, type := none }

/-- ASCII whitespace recognised by the embedding of JS `trim()` and `\s`
(space, tab, newline, carriage return, vertical tab, form feed; the exotic
Unicode space characters JS also accepts appear in no claim). -/
def isJsWhitespace (c : Char) : Bool :=
  c = ' ' || c = '\t' || c = '\n' || c = '\r' || decide (c.toNat = 11) || decide (c.toNat = 12)

/-- `String.prototype.trim` on a character list. -/
def jsTrim (cs : List Char) : List Char :=
  ((cs.dropWhile isJsWhitespace).reverse.dropWhile isJsWhitespace).reverse

/-- Numeric value of a digit character. -/
def digitVal (c : Char) : Nat := c.toNat - 48

/-- The regex `^(\d{1,2}):(\d{2})$` of `normalizeTime` (src/bot.js:163):
on success returns `(hours, minutes)` as `Number` would convert them. -/
def matchHHMM : List Char → Option (Nat × Nat)
  | [a, ':', c, d] =>
    if isDigitChar a && isDigitChar c && isDigitChar d then
      some (digitVal a, 10 * digitVal c + digitVal d)
    else none
  | [a, b, ':', c, d] =>
    if isDigitChar a && isDigitChar b && isDigitChar c && isDigitChar d then
      some (10 * digitVal a + digitVal b, 10 * digitVal c + digitVal d)
    else none
  | _ => none

/-- Tail of the 12-hour regex after `\s*`: `(am|pm)$`, case-insensitive;
`false` = am, `true` = pm. -/
def amPmSuffix (hh mm : Nat) (rest : List Char) : Option (Nat × Nat × Bool) :=
  match rest.dropWhile isJsWhitespace with
  | [x, y] =>
    if (x = 'a' ∨ x = 'A') ∧ (y = 'm' ∨ y = 'M') then some (hh, mm, false)
    else if (x = 'p' ∨ x = 'P') ∧ (y = 'm' ∨ y = 'M') then some (hh, mm, true)
    else none
  | _ => none

/-- Tail of the 12-hour regex after the hour digits: the optional
`(?::(\d{2}))?` group, then suffix. -/
def amPmTail (hh : Nat) (rest : List Char) : Option (Nat × Nat × Bool) :=
  match rest with
  | ':' :: c :: d :: rest2 =>
    if isDigitChar c && isDigitChar d then amPmSuffix hh (10 * digitVal c + digitVal d) rest2
    else none
  | _ => amPmSuffix hh 0 rest

/-- The regex `^(\d{1,2})(?::(\d{2}))?\s*(am|pm)$/i` of `normalizeTime`
(src/bot.js:173): greedy one-or-two-digit hour (backtracking can never
succeed where the greedy parse fails, since a digit matches none of `:`,
`\s`, `a`, `p`), optional minutes, optional whitespace, am/pm suffix. -/
def matchAmPm : List Char → Option (Nat × Nat × Bool)
  | [] => none
  | a :: rest =>
    if isDigitChar a then
      match rest with
      | b :: rest2 =>
        if isDigitChar b then amPmTail (10 * digitVal a + digitVal b) rest2
        else amPmTail (digitVal a) rest
      | [] => amPmSuffix (digitVal a) 0 []
    else none

/-- `String(hh).padStart(2, '0')` for the at-most-two-digit numbers reaching
the formatting lines. -/
def pad2 (n : Nat) : String :=
  if n < 10 then "0" ++ toString n else toString n

/-- The result shape `${pad2 hh}:${pad2 mm}` of `normalizeTime`. -/
def fmtHHMM (hh mm : Nat) : String :=
  pad2 hh ++ ":" ++ pad2 mm

/-- The 12-hour branch of `normalizeTime` (src/bot.js:172-185): convert the
am/pm parse to 24-hour form and range-check. -/
def normalizeAmPm (cs : List Char) : Option String :=
  match matchAmPm cs with
  | none => none
  | some (h12, mm, isPm) =>
    let hh1 := if isPm = true ∧ h12 ≠ 12 then h12 + 12 else h12
    let hh2 := if isPm = false ∧ hh1 = 12 then 0 else hh1
    if hh2 ≤ 23 ∧ mm ≤ 59 then some (fmtHHMM hh2 mm) else none

/-- `normalizeTime` (src/bot.js:155-188, the full first-variant definition):
trim, dots to colons, try `HH:MM`, then the 12-hour form; `null` otherwise.
The guard `if (!t) return null` is the `t = ""` test (the only falsy
string). -/
def normalizeTime (t : String) : Option String :=
  if t = "" then none
  else
    let cs := (jsTrim t.data).map (fun c => if c = '.' then ':' else c)
    match matchHHMM cs with
    | some (hh, mm) =>
      if hh ≤ 23 ∧ mm ≤ 59 then some (fmtHHMM hh mm) else normalizeAmPm cs
    | none => normalizeAmPm cs

/-- `String.prototype.startsWith`, on character lists so it evaluates in the
kernel. -/
def strStartsWith (s p : String) : Bool :=
  p.data.isPrefixOf s.data

/-- `data.split(':')[1]` (src/bot.js:1409 etc.): the draft id a button
payload names. -/
def payloadId (data : String) : String :=
  ((splitCols data.data).map (fun g => String.mk g)).getD 1 ""

/-- The session/store/reply triple a callback branch produces; `outcome` is
the `answerCallbackQuery` text (with `"conflict_prompt"` standing for the
text-free conflict prompt and `"unhandled"` for data outside the six draft
actions). -/
structure CallbackResult where
  session : Session
  events : List EventRow
  outcome : String
deriving Repr, DecidableEq

/-- `addEventToDB` (src/bot.js:216-243): insert the draft's fields (empty
strings stored as `NULL` via `|| null`; `task`/`date` are non-null for every
draft that passed the completeness check) and return the stored row under
the fresh id. -/
def addEventToDB (chatId : String) (nextId : Nat) (events : List EventRow) (d : Draft) :
    List EventRow × EventRow :=
  let row : EventRow :=
    { id := nextId, chat_id := chatId, task := d.task, date := d.date.getD "",
      start_time := truthyVal d.start_time, end_time := truthyVal d.end_time,
      location := truthyVal d.location, type := truthyVal d.type }
  (events ++ [row], row)

/-- `deleteEvent` (src/bot.js:267-270): `DELETE FROM events WHERE id = ? AND
chat_id = ?`. -/
def deleteEvent (chatId : String) (events : List EventRow) (eventId : Nat) :
    List EventRow :=
  events.filter fun e => !(decide (e.id = eventId) && decide (e.chat_id = chatId))

/-- Mutation of the draft object `getDraftOrExpire` aliases into the
session's array: rewrite the first draft carrying the id. -/
def updateFirst (ds : List DraftObj) (did : String) (f : DraftObj → DraftObj) :
    List DraftObj :=
  match ds with
  | [] => []
  | d :: t => if d.id = did then f d :: t else d :: updateFirst t did f

/-- The `confirm:` branch (src/bot.js:1408-1469): expired lookup, then
completeness re-check, then conflict check (prompt without mutating when
conflicts exist), else commit and drop the draft. -/
def confirmAction (chatId : String) (session : Session) (events : List EventRow)
    (school : List TimetableRow) (nextId : Nat) (draftId : String) : CallbackResult :=
  match session.drafts.find? (fun x => decide (x.id = draftId)) with
  | none => ⟨session, events, "❌ Draft expired."⟩
  | some draftObj =>
    if draftIsCompleteEnough draftObj.draft = false then
      ⟨session, events, "Need at least title + date."⟩
    else
      let conflicts := checkConflicts chatId events school (draftObj.draft.date.getD "")
        draftObj.draft.start_time draftObj.draft.end_time
      if conflicts.length > 0 then ⟨session, events, "conflict_prompt"⟩
      else
        let saved := addEventToDB chatId nextId events draftObj.draft
        ⟨{ session with drafts := session.drafts.filter fun d => decide (d.id ≠ draftId) },
          saved.1, "Saved."⟩

/-- The `edit:` branch (src/bot.js:1471-1487): arm `overwriteNext`, return
the draft to `collecting`. -/
def editAction (session : Session) (events : List EventRow) (now : Int)
    (draftId : String) : CallbackResult :=
  match session.drafts.find? (fun x => decide (x.id = draftId)) with
  | none => ⟨session, events, "❌ Draft expired."⟩
  | some _ =>
    ⟨{ session with drafts := updateFirst session.drafts draftId fun d =>
        { d with overwriteNext := true, state := "collecting", updatedAt := now } },
      events, "Send the corrected info now."⟩

/-- The `discard:` branch (src/bot.js:1489-1502). -/
def discardAction (session : Session) (events : List EventRow) (draftId : String) :
    CallbackResult :=
  match session.drafts.find? (fun x => decide (x.id = draftId)) with
  | none => ⟨session, events, "❌ Draft expired."⟩
  | some _ =>
    ⟨{ session with drafts := session.drafts.filter fun d => decide (d.id ≠ draftId) },
      events, "Discarded."⟩

/-- The `conflict_keep:` branch (src/bot.js:1505-1526): commit anyway. -/
def conflictKeepAction (chatId : String) (session : Session) (events : List EventRow)
    (nextId : Nat) (draftId : String) : CallbackResult :=
  match session.drafts.find? (fun x => decide (x.id = draftId)) with
  | none => ⟨session, events, "❌ Draft expired."⟩
  | some draftObj =>
    let saved := addEventToDB chatId nextId events draftObj.draft
    ⟨{ session with drafts := session.drafts.filter fun d => decide (d.id ≠ draftId) },
      saved.1, "Saved (kept both)."⟩

/-- The `conflict_replace:` branch (src/bot.js:1528-1560): delete every
conflicting item's id from the events table, then commit. -/
def conflictReplaceAction (chatId : String) (session : Session) (events : List EventRow)
    (school : List TimetableRow) (nextId : Nat) (draftId : String) : CallbackResult :=
  match session.drafts.find? (fun x => decide (x.id = draftId)) with
  | none => ⟨session, events, "❌ Draft expired."⟩
  | some draftObj =>
    let conflicts := checkConflicts chatId events school (draftObj.draft.date.getD "")
      draftObj.draft.start_time draftObj.draft.end_time
    let events1 := conflicts.foldl (fun evs c => deleteEvent chatId evs c.id) events
    let saved := addEventToDB chatId nextId events1 draftObj.draft
    ⟨{ session with drafts := session.drafts.filter fun d => decide (d.id ≠ draftId) },
      saved.1, "Replaced and saved."⟩

/-- The `conflict_cancel:` branch (src/bot.js:1562-1580): return the draft
to `awaiting_confirm` without committing. -/
def conflictCancelAction (session : Session) (events : List EventRow) (now : Int)
    (draftId : String) : CallbackResult :=
  match session.drafts.find? (fun x => decide (x.id = draftId)) with
  | none => ⟨session, events, "❌ Draft expired."⟩
  | some _ =>
    ⟨{ session with drafts := updateFirst session.drafts draftId fun d =>
        { d with state := "awaiting_confirm", updatedAt := now } },
      events, "Cancelled."⟩

/-- The draft-button portion of the callback-query handler
(src/bot.js:1396-1580), dispatching on the payload prefix in source order. -/
def handleDraftCallback (chatId : String) (data : String) (session : Session)
    (events : List EventRow) (school : List TimetableRow) (now : Int) (nextId : Nat) :
    CallbackResult :=
  let draftId := payloadId data
  if strStartsWith data "confirm:" then confirmAction chatId session events school nextId draftId
  else if strStartsWith data "edit:" then editAction session events now draftId
  else if strStartsWith data "discard:" then discardAction session events draftId
  else if strStartsWith data "conflict_keep:" then
    conflictKeepAction chatId session events nextId draftId
  else if strStartsWith data "conflict_replace:" then
    conflictReplaceAction chatId session events school nextId draftId
  else if strStartsWith data "conflict_cancel:" then
    conflictCancelAction session events now draftId
  else ⟨session, events, "unhandled"⟩

lemma mergeVal_true (cur : Option String) (v : String) : mergeVal true cur v = some v := by
  unfold mergeVal; split <;> rfl

lemma mergeVal_of_truthy {cur : Option String} (h : truthy cur = true) (v : String) :
    mergeVal false cur v = cur := by
  simp [mergeVal, h]

lemma mergeVal_of_not_truthy {cur : Option String} (h : ¬ truthy cur = true)
    (a : Bool) (v : String) : mergeVal a cur v = some v := by
  simp [mergeVal, h]

lemma mergeVal_cases (a : Bool) (cur : Option String) (v : String) :
    mergeVal a cur v = cur ∨ mergeVal a cur v = some v := by
  unfold mergeVal; split_ifs <;> simp

lemma mergeList_stable (vs : List String) :
    ∀ {cur : Option String}, truthy cur = true → mergeList false cur vs = cur := by
  induction vs with
  | nil => intro cur _; rfl
  | cons v t ih =>
    intro cur h
    show mergeList false (mergeVal false cur v) t = cur
    rw [mergeVal_of_truthy h]
    exact ih h

lemma mergeList_true_cons (cur : Option String) (v : String) (t : List String) :
    mergeList true cur (v :: t) = mergeList true (some v) t := by
  show mergeList true (mergeVal true cur v) t = _
  rw [mergeVal_true]

lemma mergeList_idem (a : Bool) (vs : List String) :
    ∀ cur : Option String, mergeList a (mergeList a cur vs) vs = mergeList a cur vs := by
  cases a with
  | true =>
    intro cur
    cases vs with
    | nil => rfl
    | cons v t => rw [mergeList_true_cons, mergeList_true_cons]
  | false =>
    induction vs with
    | nil => intro cur; rfl
    | cons v t ih =>
      intro cur
      show mergeList false (mergeVal false (mergeList false cur (v :: t)) v) t =
        mergeList false cur (v :: t)
      by_cases hR : truthy (mergeList false cur (v :: t)) = true
      · rw [mergeVal_of_truthy hR]
        exact mergeList_stable t hR
      · have hcur : ¬ truthy cur = true := by
          intro hc
          have h1 : mergeList false cur (v :: t) = cur := mergeList_stable (v :: t) hc
          rw [h1] at hR
          exact hR hc
        rw [mergeVal_of_not_truthy hR]
        show mergeList false (some v) t = mergeList false (mergeVal false cur v) t
        rw [mergeVal_of_not_truthy hcur]

lemma mergeList_result (a : Bool) (vs : List String) :
    ∀ cur : Option String,
      mergeList a cur vs = cur ∨ ∃ v ∈ vs, mergeList a cur vs = some v := by
  induction vs with
  | nil => intro cur; left; rfl
  | cons v t ih =>
    intro cur
    have step : mergeList a cur (v :: t) = mergeList a (mergeVal a cur v) t := rfl
    rcases ih (mergeVal a cur v) with h | ⟨w, hw, h⟩
    · rcases mergeVal_cases a cur v with hv | hv
      · left; rw [step, h, hv]
      · right; exact ⟨v, List.mem_cons_self v t, by rw [step, h, hv]⟩
    · right; exact ⟨w, List.mem_cons_of_mem v hw, by rw [step, h]⟩

lemma mergeStep_none (a : Bool) (d : Draft) (k : String) : mergeStep a d (k, none) = d := rfl

lemma mergeStep_task (a : Bool) (d : Draft) (k : String) (v : String) :
    (mergeStep a d (k, some v)).task =
      if k = "task" then mergeVal a d.task v else d.task := by
  simp only [mergeStep]; split_ifs <;> simp_all

lemma mergeStep_date (a : Bool) (d : Draft) (k : String) (v : String) :
    (mergeStep a d (k, some v)).date =
      if k = "date" then mergeVal a d.date v else d.date := by
  simp only [mergeStep]; split_ifs <;> simp_all

lemma mergeStep_start_time (a : Bool) (d : Draft) (k : String) (v : String) :
    (mergeStep a d (k, some v)).start_time =
      if k = "start_time" then mergeVal a d.start_time v else d.start_time := by
  simp only [mergeStep]; split_ifs <;> simp_all

lemma mergeStep_end_time (a : Bool) (d : Draft) (k : String) (v : String) :
    (mergeStep a d (k, some v)).end_time =
      if k = "end_time" then mergeVal a d.end_time v else d.end_time := by
  simp only [mergeStep]; split_ifs <;> simp_all

lemma mergeStep_location (a : Bool) (d : Draft) (k : String) (v : String) :
    (mergeStep a d (k, some v)).location =
      if k = "location" then mergeVal a d.location v else d.location := by
  simp only [mergeStep]; split_ifs <;> simp_all

lemma mergeStep_type (a : Bool) (d : Draft) (k : String) (v : String) :
    (mergeStep a d (k, some v)).type =
      if k = "type" then mergeVal a d.type v else d.type := by
  simp only [mergeStep]; split_ifs <;> simp_all

lemma foldl_mergeStep_task (a : Bool) (u : Updates) :
    ∀ d : Draft, (u.foldl (mergeStep a) d).task = mergeList a d.task (fieldVals "task" u) := by
  induction u with
  | nil => intro d; rfl
  | cons kv t ih =>
    intro d
    obtain ⟨k, v?⟩ := kv
    cases v? with
    | none =>
      have hf : fieldVals "task" ((k, none) :: t) = fieldVals "task" t := by
        simp [fieldVals, List.filterMap_cons]
      rw [List.foldl_cons, mergeStep_none, hf]
      exact ih d
    | some v =>
      by_cases hk : k = "task"
      · subst hk
        have hf : fieldVals "task" (("task", some v) :: t) = v :: fieldVals "task" t := by
          simp [fieldVals, List.filterMap_cons]
        rw [List.foldl_cons, hf]
        show _ = mergeList a (mergeVal a d.task v) (fieldVals "task" t)
        rw [ih, mergeStep_task]
        simp
      · have hf : fieldVals "task" ((k, some v) :: t) = fieldVals "task" t := by
          simp [fieldVals, List.filterMap_cons, hk]
        rw [List.foldl_cons, hf, ih, mergeStep_task]
        simp [hk]

lemma foldl_mergeStep_date (a : Bool) (u : Updates) :
    ∀ d : Draft, (u.foldl (mergeStep a) d).date = mergeList a d.date (fieldVals "date" u) := by
  induction u with
  | nil => intro d; rfl
  | cons kv t ih =>
    intro d
    obtain ⟨k, v?⟩ := kv
    cases v? with
    | none =>
      have hf : fieldVals "date" ((k, none) :: t) = fieldVals "date" t := by
        simp [fieldVals, List.filterMap_cons]
      rw [List.foldl_cons, mergeStep_none, hf]
      exact ih d
    | some v =>
      by_cases hk : k = "date"
      · subst hk
        have hf : fieldVals "date" (("date", some v) :: t) = v :: fieldVals "date" t := by
          simp [fieldVals, List.filterMap_cons]
        rw [List.foldl_cons, hf]
        show _ = mergeList a (mergeVal a d.date v) (fieldVals "date" t)
        rw [ih, mergeStep_date]
        simp
      · have hf : fieldVals "date" ((k, some v) :: t) = fieldVals "date" t := by
          simp [fieldVals, List.filterMap_cons, hk]
        rw [List.foldl_cons, hf, ih, mergeStep_date]
        simp [hk]

lemma foldl_mergeStep_start_time (a : Bool) (u : Updates) :
    ∀ d : Draft, (u.foldl (mergeStep a) d).start_time = mergeList a d.start_time (fieldVals "start_time" u) := by
  induction u with
  | nil => intro d; rfl
  | cons kv t ih =>
    intro d
    obtain ⟨k, v?⟩ := kv
    cases v? with
    | none =>
      have hf : fieldVals "start_time" ((k, none) :: t) = fieldVals "start_time" t := by
        simp [fieldVals, List.filterMap_cons]
      rw [List.foldl_cons, mergeStep_none, hf]
      exact ih d
    | some v =>
      by_cases hk : k = "start_time"
      · subst hk
        have hf : fieldVals "start_time" (("start_time", some v) :: t) = v :: fieldVals "start_time" t := by
          simp [fieldVals, List.filterMap_cons]
        rw [List.foldl_cons, hf]
        show _ = mergeList a (mergeVal a d.start_time v) (fieldVals "start_time" t)
        rw [ih, mergeStep_start_time]
        simp
      · have hf : fieldVals "start_time" ((k, some v) :: t) = fieldVals "start_time" t := by
          simp [fieldVals, List.filterMap_cons, hk]
        rw [List.foldl_cons, hf, ih, mergeStep_start_time]
        simp [hk]

lemma foldl_mergeStep_end_time (a : Bool) (u : Updates) :
    ∀ d : Draft, (u.foldl (mergeStep a) d).end_time = mergeList a d.end_time (fieldVals "end_time" u) := by
  induction u with
  | nil => intro d; rfl
  | cons kv t ih =>
    intro d
    obtain ⟨k, v?⟩ := kv
    cases v? with
    | none =>
      have hf : fieldVals "end_time" ((k, none) :: t) = fieldVals "end_time" t := by
        simp [fieldVals, List.filterMap_cons]
      rw [List.foldl_cons, mergeStep_none, hf]
      exact ih d
    | some v =>
      by_cases hk : k = "end_time"
      · subst hk
        have hf : fieldVals "end_time" (("end_time", some v) :: t) = v :: fieldVals "end_time" t := by
          simp [fieldVals, List.filterMap_cons]
        rw [List.foldl_cons, hf]
        show _ = mergeList a (mergeVal a d.end_time v) (fieldVals "end_time" t)
        rw [ih, mergeStep_end_time]
        simp
      · have hf : fieldVals "end_time" ((k, some v) :: t) = fieldVals "end_time" t := by
          simp [fieldVals, List.filterMap_cons, hk]
        rw [List.foldl_cons, hf, ih, mergeStep_end_time]
        simp [hk]

lemma foldl_mergeStep_location (a : Bool) (u : Updates) :
    ∀ d : Draft, (u.foldl (mergeStep a) d).location = mergeList a d.location (fieldVals "location" u) := by
  induction u with
  | nil => intro d; rfl
  | cons kv t ih =>
    intro d
    obtain ⟨k, v?⟩ := kv
    cases v? with
    | none =>
      have hf : fieldVals "location" ((k, none) :: t) = fieldVals "location" t := by
        simp [fieldVals, List.filterMap_cons]
      rw [List.foldl_cons, mergeStep_none, hf]
      exact ih d
    | some v =>
      by_cases hk : k = "location"
      · subst hk
        have hf : fieldVals "location" (("location", some v) :: t) = v :: fieldVals "location" t := by
          simp [fieldVals, List.filterMap_cons]
        rw [List.foldl_cons, hf]
        show _ = mergeList a (mergeVal a d.location v) (fieldVals "location" t)
        rw [ih, mergeStep_location]
        simp
      · have hf : fieldVals "location" ((k, some v) :: t) = fieldVals "location" t := by
          simp [fieldVals, List.filterMap_cons, hk]
        rw [List.foldl_cons, hf, ih, mergeStep_location]
        simp [hk]

lemma foldl_mergeStep_type (a : Bool) (u : Updates) :
    ∀ d : Draft, (u.foldl (mergeStep a) d).type = mergeList a d.type (fieldVals "type" u) := by
  induction u with
  | nil => intro d; rfl
  | cons kv t ih =>
    intro d
    obtain ⟨k, v?⟩ := kv
    cases v? with
    | none =>
      have hf : fieldVals "type" ((k, none) :: t) = fieldVals "type" t := by
        simp [fieldVals, List.filterMap_cons]
      rw [List.foldl_cons, mergeStep_none, hf]
      exact ih d
    | some v =>
      by_cases hk : k = "type"
      · subst hk
        have hf : fieldVals "type" (("type", some v) :: t) = v :: fieldVals "type" t := by
          simp [fieldVals, List.filterMap_cons]
        rw [List.foldl_cons, hf]
        show _ = mergeList a (mergeVal a d.type v) (fieldVals "type" t)
        rw [ih, mergeStep_type]
        simp
      · have hf : fieldVals "type" ((k, some v) :: t) = fieldVals "type" t := by
          simp [fieldVals, List.filterMap_cons, hk]
        rw [List.foldl_cons, hf, ih, mergeStep_type]
        simp [hk]

lemma mergeStep_not_mem (a : Bool) (d : Draft) (kv : String × Option String)
    (h : kv.1 ∉ draftKeys) : mergeStep a d kv = d := by
  obtain ⟨k, v?⟩ := kv
  cases v? with
  | none => rfl
  | some v =>
    simp only [draftKeys, List.mem_cons, List.not_mem_nil, or_false, not_or] at h
    obtain ⟨h1, h2, h3, h4, h5, h6⟩ := h
    simp [mergeStep, h1, h2, h3, h4, h5, h6]

lemma mergeND_preserve_task {d : Draft} (u : Updates) (h : truthy d.task = true) :
    (mergeDraft d u false false).task = d.task := by
  have hd : (mergeDraft d u false false).task = mergeList false d.task (fieldVals "task" u) :=
    foldl_mergeStep_task false u d
  rw [hd]
  exact mergeList_stable _ h

lemma mergeND_preserve_date {d : Draft} (u : Updates) (h : truthy d.date = true) :
    (mergeDraft d u false false).date = d.date := by
  have hd : (mergeDraft d u false false).date = mergeList false d.date (fieldVals "date" u) :=
    foldl_mergeStep_date false u d
  rw [hd]
  exact mergeList_stable _ h

lemma mergeND_preserve_start_time {d : Draft} (u : Updates) (h : truthy d.start_time = true) :
    (mergeDraft d u false false).start_time = d.start_time := by
  have hd : (mergeDraft d u false false).start_time =
      mergeList false d.start_time (fieldVals "start_time" u) :=
    foldl_mergeStep_start_time false u d
  rw [hd]
  exact mergeList_stable _ h

lemma mergeND_preserve_end_time {d : Draft} (u : Updates) (h : truthy d.end_time = true) :
    (mergeDraft d u false false).end_time = d.end_time := by
  have hd : (mergeDraft d u false false).end_time =
      mergeList false d.end_time (fieldVals "end_time" u) :=
    foldl_mergeStep_end_time false u d
  rw [hd]
  exact mergeList_stable _ h

lemma mergeND_preserve_location {d : Draft} (u : Updates) (h : truthy d.location = true) :
    (mergeDraft d u false false).location = d.location := by
  have hd : (mergeDraft d u false false).location =
      mergeList false d.location (fieldVals "location" u) :=
    foldl_mergeStep_location false u d
  rw [hd]
  exact mergeList_stable _ h

lemma mergeND_preserve_type {d : Draft} (u : Updates) (h : truthy d.type = true) :
    (mergeDraft d u false false).type = d.type := by
  have hd : (mergeDraft d u false false).type = mergeList false d.type (fieldVals "type" u) :=
    foldl_mergeStep_type false u d
  rw [hd]
  exact mergeList_stable _ h

lemma seqMergeND_preserves (us : List Updates) :
    ∀ d : Draft,
      (truthy d.task = true → (seqMergeND d us).task = d.task) ∧
      (truthy d.date = true → (seqMergeND d us).date = d.date) ∧
      (truthy d.start_time = true → (seqMergeND d us).start_time = d.start_time) ∧
      (truthy d.end_time = true → (seqMergeND d us).end_time = d.end_time) ∧
      (truthy d.location = true → (seqMergeND d us).location = d.location) ∧
      (truthy d.type = true → (seqMergeND d us).type = d.type) := by
  induction us with
  | nil =>
    intro d
    exact ⟨fun _ => rfl, fun _ => rfl, fun _ => rfl, fun _ => rfl, fun _ => rfl, fun _ => rfl⟩
  | cons u t ih =>
    intro d
    have hstep : seqMergeND d (u :: t) = seqMergeND (mergeDraft d u false false) t := rfl
    refine ⟨?_, ?_, ?_, ?_, ?_, ?_⟩
    · intro h
      have h1 : (mergeDraft d u false false).task = d.task := mergeND_preserve_task u h
      have h2 := (ih (mergeDraft d u false false)).1 (by rw [h1]; exact h)
      rw [hstep, h2, h1]
    · intro h
      have h1 : (mergeDraft d u false false).date = d.date := mergeND_preserve_date u h
      have h2 := (ih (mergeDraft d u false false)).2.1 (by rw [h1]; exact h)
      rw [hstep, h2, h1]
    · intro h
      have h1 : (mergeDraft d u false false).start_time = d.start_time := mergeND_preserve_start_time u h
      have h2 := (ih (mergeDraft d u false false)).2.2.1 (by rw [h1]; exact h)
      rw [hstep, h2, h1]
    · intro h
      have h1 : (mergeDraft d u false false).end_time = d.end_time := mergeND_preserve_end_time u h
      have h2 := (ih (mergeDraft d u false false)).2.2.2.1 (by rw [h1]; exact h)
      rw [hstep, h2, h1]
    · intro h
      have h1 : (mergeDraft d u false false).location = d.location := mergeND_preserve_location u h
      have h2 := (ih (mergeDraft d u false false)).2.2.2.2.1 (by rw [h1]; exact h)
      rw [hstep, h2, h1]
    · intro h
      have h1 : (mergeDraft d u false false).type = d.type := mergeND_preserve_type u h
      have h2 := (ih (mergeDraft d u false false)).2.2.2.2.2 (by rw [h1]; exact h)
      rw [hstep, h2, h1]

lemma mergeND_fill_task (d : Draft) (u : Updates) :
    (mergeDraft d u false false).task = d.task ∨
      (truthy d.task = false ∧
        ∃ v, ("task", some v) ∈ u ∧ (mergeDraft d u false false).task = some v) := by
  by_cases h : truthy d.task = true
  · left; exact mergeND_preserve_task u h
  · have hfalse : truthy d.task = false := by revert h; cases truthy d.task <;> simp
    have hdec : (mergeDraft d u false false).task =
        mergeList false d.task (fieldVals "task" u) :=
      foldl_mergeStep_task false u d
    rcases mergeList_result false (fieldVals "task" u) d.task with hr | ⟨v, hv, hr⟩
    · left; rw [hdec, hr]
    · right
      refine ⟨hfalse, v, ?_, by rw [hdec, hr]⟩
      simp only [fieldVals, List.mem_filterMap] at hv
      obtain ⟨⟨k, w⟩, hmem, hkw⟩ := hv
      by_cases hk : k = "task"
      · subst hk
        rw [if_pos rfl] at hkw
        have hw : w = some v := hkw
        exact hw ▸ hmem
      · rw [if_neg hk] at hkw
        exact absurd hkw (by simp)

lemma mergeND_fill_date (d : Draft) (u : Updates) :
    (mergeDraft d u false false).date = d.date ∨
      (truthy d.date = false ∧
        ∃ v, ("date", some v) ∈ u ∧ (mergeDraft d u false false).date = some v) := by
  by_cases h : truthy d.date = true
  · left; exact mergeND_preserve_date u h
  · have hfalse : truthy d.date = false := by revert h; cases truthy d.date <;> simp
    have hdec : (mergeDraft d u false false).date =
        mergeList false d.date (fieldVals "date" u) :=
      foldl_mergeStep_date false u d
    rcases mergeList_result false (fieldVals "date" u) d.date with hr | ⟨v, hv, hr⟩
    · left; rw [hdec, hr]
    · right
      refine ⟨hfalse, v, ?_, by rw [hdec, hr]⟩
      simp only [fieldVals, List.mem_filterMap] at hv
      obtain ⟨⟨k, w⟩, hmem, hkw⟩ := hv
      by_cases hk : k = "date"
      · subst hk
        rw [if_pos rfl] at hkw
        have hw : w = some v := hkw
        exact hw ▸ hmem
      · rw [if_neg hk] at hkw
        exact absurd hkw (by simp)

lemma mergeND_fill_start_time (d : Draft) (u : Updates) :
    (mergeDraft d u false false).start_time = d.start_time ∨
      (truthy d.start_time = false ∧
        ∃ v, ("start_time", some v) ∈ u ∧ (mergeDraft d u false false).start_time = some v) := by
  by_cases h : truthy d.start_time = true
  · left; exact mergeND_preserve_start_time u h
  · have hfalse : truthy d.start_time = false := by revert h; cases truthy d.start_time <;> simp
    have hdec : (mergeDraft d u false false).start_time =
        mergeList false d.start_time (fieldVals "start_time" u) :=
      foldl_mergeStep_start_time false u d
    rcases mergeList_result false (fieldVals "start_time" u) d.start_time with hr | ⟨v, hv, hr⟩
    · left; rw [hdec, hr]
    · right
      refine ⟨hfalse, v, ?_, by rw [hdec, hr]⟩
      simp only [fieldVals, List.mem_filterMap] at hv
      obtain ⟨⟨k, w⟩, hmem, hkw⟩ := hv
      by_cases hk : k = "start_time"
      · subst hk
        rw [if_pos rfl] at hkw
        have hw : w = some v := hkw
        exact hw ▸ hmem
      · rw [if_neg hk] at hkw
        exact absurd hkw (by simp)

lemma mergeND_fill_end_time (d : Draft) (u : Updates) :
    (mergeDraft d u false false).end_time = d.end_time ∨
      (truthy d.end_time = false ∧
        ∃ v, ("end_time", some v) ∈ u ∧ (mergeDraft d u false false).end_time = some v) := by
  by_cases h : truthy d.end_time = true
  · left; exact mergeND_preserve_end_time u h
  · have hfalse : truthy d.end_time = false := by revert h; cases truthy d.end_time <;> simp
    have hdec : (mergeDraft d u false false).end_time =
        mergeList false d.end_time (fieldVals "end_time" u) :=
      foldl_mergeStep_end_time false u d
    rcases mergeList_result false (fieldVals "end_time" u) d.end_time with hr | ⟨v, hv, hr⟩
    · left; rw [hdec, hr]
    · right
      refine ⟨hfalse, v, ?_, by rw [hdec, hr]⟩
      simp only [fieldVals, List.mem_filterMap] at hv
      obtain ⟨⟨k, w⟩, hmem, hkw⟩ := hv
      by_cases hk : k = "end_time"
      · subst hk
        rw [if_pos rfl] at hkw
        have hw : w = some v := hkw
        exact hw ▸ hmem
      · rw [if_neg hk] at hkw
        exact absurd hkw (by simp)

lemma mergeND_fill_location (d : Draft) (u : Updates) :
    (mergeDraft d u false false).location = d.location ∨
      (truthy d.location = false ∧
        ∃ v, ("location", some v) ∈ u ∧ (mergeDraft d u false false).location = some v) := by
  by_cases h : truthy d.location = true
  · left; exact mergeND_preserve_location u h
  · have hfalse : truthy d.location = false := by revert h; cases truthy d.location <;> simp
    have hdec : (mergeDraft d u false false).location =
        mergeList false d.location (fieldVals "location" u) :=
      foldl_mergeStep_location false u d
    rcases mergeList_result false (fieldVals "location" u) d.location with hr | ⟨v, hv, hr⟩
    · left; rw [hdec, hr]
    · right
      refine ⟨hfalse, v, ?_, by rw [hdec, hr]⟩
      simp only [fieldVals, List.mem_filterMap] at hv
      obtain ⟨⟨k, w⟩, hmem, hkw⟩ := hv
      by_cases hk : k = "location"
      · subst hk
        rw [if_pos rfl] at hkw
        have hw : w = some v := hkw
        exact hw ▸ hmem
      · rw [if_neg hk] at hkw
        exact absurd hkw (by simp)

lemma mergeND_fill_type (d : Draft) (u : Updates) :
    (mergeDraft d u false false).type = d.type ∨
      (truthy d.type = false ∧
        ∃ v, ("type", some v) ∈ u ∧ (mergeDraft d u false false).type = some v) := by
  by_cases h : truthy d.type = true
  · left; exact mergeND_preserve_type u h
  · have hfalse : truthy d.type = false := by revert h; cases truthy d.type <;> simp
    have hdec : (mergeDraft d u false false).type =
        mergeList false d.type (fieldVals "type" u) :=
      foldl_mergeStep_type false u d
    rcases mergeList_result false (fieldVals "type" u) d.type with hr | ⟨v, hv, hr⟩
    · left; rw [hdec, hr]
    · right
      refine ⟨hfalse, v, ?_, by rw [hdec, hr]⟩
      simp only [fieldVals, List.mem_filterMap] at hv
      obtain ⟨⟨k, w⟩, hmem, hkw⟩ := hv
      by_cases hk : k = "type"
      · subst hk
        rw [if_pos rfl] at hkw
        have hw : w = some v := hkw
        exact hw ▸ hmem
      · rw [if_neg hk] at hkw
        exact absurd hkw (by simp)

lemma mergeDraft_filter_keys (oi ow : Bool) (u : Updates) :
    ∀ d : Draft,
      mergeDraft d u oi ow = mergeDraft d (u.filter fun kv => decide (kv.1 ∈ draftKeys)) oi ow := by
  induction u with
  | nil => intro d; rfl
  | cons kv t ih =>
    intro d
    by_cases hk : kv.1 ∈ draftKeys
    · have hfil : (kv :: t).filter (fun kv => decide (kv.1 ∈ draftKeys)) =
          kv :: t.filter (fun kv => decide (kv.1 ∈ draftKeys)) := by
        simp [List.filter_cons, hk]
      rw [hfil]
      show (t.foldl (mergeStep (oi || ow)) (mergeStep (oi || ow) d kv)) = _
      exact ih (mergeStep (oi || ow) d kv)
    · have hfil : (kv :: t).filter (fun kv => decide (kv.1 ∈ draftKeys)) =
          t.filter (fun kv => decide (kv.1 ∈ draftKeys)) := by
        simp [List.filter_cons, hk]
      rw [hfil]
      show (t.foldl (mergeStep (oi || ow)) (mergeStep (oi || ow) d kv)) = _
      rw [mergeStep_not_mem (oi || ow) d kv hk]
      exact ih d

/-- C10: `mergeDraft` is idempotent for every flag combination, and entries
whose key is not one of the draft record's six fields are skipped (merging is
unchanged when such entries are filtered out). -/
theorem mergeDraft_idem_skips :
    ∀ (d : Draft) (u : Updates) (oi ow : Bool),
      mergeDraft (mergeDraft d u oi ow) u oi ow = mergeDraft d u oi ow ∧
      mergeDraft d u oi ow = mergeDraft d (u.filter fun kv => decide (kv.1 ∈ draftKeys)) oi ow := by
  intro d u oi ow
  constructor
  · ext1
    · simp only [mergeDraft, foldl_mergeStep_task]
      exact mergeList_idem (oi || ow) (fieldVals "task" u) d.task
    · simp only [mergeDraft, foldl_mergeStep_date]
      exact mergeList_idem (oi || ow) (fieldVals "date" u) d.date
    · simp only [mergeDraft, foldl_mergeStep_start_time]
      exact mergeList_idem (oi || ow) (fieldVals "start_time" u) d.start_time
    · simp only [mergeDraft, foldl_mergeStep_end_time]
      exact mergeList_idem (oi || ow) (fieldVals "end_time" u) d.end_time
    · simp only [mergeDraft, foldl_mergeStep_location]
      exact mergeList_idem (oi || ow) (fieldVals "location" u) d.location
    · simp only [mergeDraft, foldl_mergeStep_type]
      exact mergeList_idem (oi || ow) (fieldVals "type" u) d.type
  · exact mergeDraft_filter_keys oi ow u d

/-- C3: non-destructive merges (`overwrite_intent = false`, `overwriteNext = false`)
never alter an already non-empty draft field, over any sequence of merges; and a
single such merge changes an empty field only to a non-null value the fragment
supplies for that field. -/
theorem mergeDraft_nondestructive :
    (∀ (us : List Updates) (d : Draft),
      (truthy d.task = true → (seqMergeND d us).task = d.task) ∧
      (truthy d.date = true → (seqMergeND d us).date = d.date) ∧
      (truthy d.start_time = true → (seqMergeND d us).start_time = d.start_time) ∧
      (truthy d.end_time = true → (seqMergeND d us).end_time = d.end_time) ∧
      (truthy d.location = true → (seqMergeND d us).location = d.location) ∧
      (truthy d.type = true → (seqMergeND d us).type = d.type)) ∧
    (∀ (d : Draft) (u : Updates),
      ((mergeDraft d u false false).task = d.task ∨
        (truthy d.task = false ∧
          ∃ v, ("task", some v) ∈ u ∧ (mergeDraft d u false false).task = some v)) ∧
      ((mergeDraft d u false false).date = d.date ∨
        (truthy d.date = false ∧
          ∃ v, ("date", some v) ∈ u ∧ (mergeDraft d u false false).date = some v)) ∧
      ((mergeDraft d u false false).start_time = d.start_time ∨
        (truthy d.start_time = false ∧
          ∃ v, ("start_time", some v) ∈ u ∧ (mergeDraft d u false false).start_time = some v)) ∧
      ((mergeDraft d u false false).end_time = d.end_time ∨
        (truthy d.end_time = false ∧
          ∃ v, ("end_time", some v) ∈ u ∧ (mergeDraft d u false false).end_time = some v)) ∧
      ((mergeDraft d u false false).location = d.location ∨
        (truthy d.location = false ∧
          ∃ v, ("location", some v) ∈ u ∧ (mergeDraft d u false false).location = some v)) ∧
      ((mergeDraft d u false false).type = d.type ∨
        (truthy d.type = false ∧
          ∃ v, ("type", some v) ∈ u ∧ (mergeDraft d u false false).type = some v))) := by
  constructor
  · exact fun us d => seqMergeND_preserves us d
  · intro d u
    exact ⟨mergeND_fill_task d u, mergeND_fill_date d u, mergeND_fill_start_time d u,
      mergeND_fill_end_time d u, mergeND_fill_location d u, mergeND_fill_type d u⟩

/-- Witness for C3 at a concrete input: a draft whose title is already
"Gym" keeps it across a sequence of two non-destructive merges that try to
change it. -/
theorem mergeDraft_nondestructive_witness :
    (seqMergeND { makeEmptyDraft with task := some "Gym" }
      [[("task", some "Swim")], [("task", some "Run"), ("date", some "2025-03-01")]]).task =
      some "Gym" :=
  (mergeDraft_nondestructive.1
    [[("task", some "Swim")], [("task", some "Run"), ("date", some "2025-03-01")]]
    { makeEmptyDraft with task := some "Gym" }).1 (by decide)

/-- C2: `shouldStartNewDraftFromUpdate` is false whenever `overwrite_intent`
is set; otherwise it is true exactly when the fragment carries a date that
differs from the draft's already-set date while the draft has other content
(title, start time, or location), or carries a task differing from the
draft's already-set task while the draft has a date; and it never forks on a
completely empty draft. -/
theorem shouldStartNewDraft_spec :
    ∀ (d : Draft) (u : Updates) (oi : Bool),
      (shouldStartNewDraftFromUpdate d u oi = true ↔
        oi = false ∧
        ((truthy (getProp u "date") = true ∧ truthy d.date = true ∧
            (truthy d.task = true ∨ truthy d.start_time = true ∨ truthy d.location = true) ∧
            getProp u "date" ≠ d.date) ∨
          (truthy (getProp u "task") = true ∧ truthy d.task = true ∧ truthy d.date = true ∧
            getProp u "task" ≠ d.task))) ∧
      shouldStartNewDraftFromUpdate makeEmptyDraft u oi = false := by
  intro d u oi
  constructor
  · cases oi with
    | true => simp [shouldStartNewDraftFromUpdate]
    | false =>
      simp only [shouldStartNewDraftFromUpdate, Bool.false_eq_true, if_false]
      split_ifs with h1 h2
      · simp only [Bool.and_eq_true, Bool.or_eq_true, decide_eq_true_eq] at h1
        constructor
        · intro _
          exact ⟨by trivial, Or.inl ⟨h1.1.1.1, h1.1.1.2, by tauto, h1.2⟩⟩
        · intro _
          rfl
      · simp only [Bool.and_eq_true, Bool.or_eq_true, decide_eq_true_eq] at h2
        constructor
        · intro _
          exact ⟨by trivial, Or.inr ⟨h2.1.1.1, h2.1.1.2, h2.1.2, h2.2⟩⟩
        · intro _
          rfl
      · simp only [Bool.and_eq_true, Bool.or_eq_true, decide_eq_true_eq] at h1 h2
        constructor
        · intro h
          exact absurd h (by simp)
        · rintro ⟨-, hc | hc⟩
          · exact absurd ⟨⟨⟨hc.1, hc.2.1⟩, by tauto⟩, hc.2.2.2⟩ h1
          · exact absurd ⟨⟨⟨hc.1, hc.2.1⟩, hc.2.2.1⟩, hc.2.2.2⟩ h2
  · cases oi <;> simp [shouldStartNewDraftFromUpdate, makeEmptyDraft, truthy]

/-- C4: after the message handler's merge step, a draft that was in
`collecting` moves to `awaiting_confirm` if and only if the merged draft has
both a non-empty task and a non-empty date, and otherwise stays `collecting`. -/
theorem completeness_transition_spec :
    ∀ (dobj : DraftObj) (u : Updates) (oi : Bool) (now : Int),
      dobj.state = "collecting" →
      ((applyUpdatesStep dobj u oi now).state = "awaiting_confirm" ↔
        truthy (mergeDraft dobj.draft u oi dobj.overwriteNext).task = true ∧
        truthy (mergeDraft dobj.draft u oi dobj.overwriteNext).date = true) ∧
      ((applyUpdatesStep dobj u oi now).state = "collecting" ↔
        ¬(truthy (mergeDraft dobj.draft u oi dobj.overwriteNext).task = true ∧
          truthy (mergeDraft dobj.draft u oi dobj.overwriteNext).date = true)) := by
  intro dobj u oi now hstate
  simp only [applyUpdatesStep]
  by_cases hc : draftIsCompleteEnough (mergeDraft dobj.draft u oi dobj.overwriteNext) = true
  · have hc' : truthy (mergeDraft dobj.draft u oi dobj.overwriteNext).task = true ∧
        truthy (mergeDraft dobj.draft u oi dobj.overwriteNext).date = true := by
      simpa [draftIsCompleteEnough, Bool.and_eq_true] using hc
    rw [if_pos hc]
    refine ⟨⟨fun _ => hc', fun _ => rfl⟩, ⟨fun h => absurd h (by simp), fun h => absurd hc' h⟩⟩
  · have hc' : ¬(truthy (mergeDraft dobj.draft u oi dobj.overwriteNext).task = true ∧
        truthy (mergeDraft dobj.draft u oi dobj.overwriteNext).date = true) := by
      intro h
      exact hc (by simp [draftIsCompleteEnough, Bool.and_eq_true, h.1, h.2])
    rw [if_neg hc]
    refine ⟨⟨fun h => ?_, fun h => absurd h hc'⟩, ⟨fun _ => hc', fun _ => hstate⟩⟩
    rw [hstate] at h
    exact absurd h (by decide)

/-- Witness for C4: merging a fragment carrying both title and date into an
empty collecting draft moves it to `awaiting_confirm`. -/
theorem completeness_transition_spec_witness :
    (applyUpdatesStep staleCollecting [("task", some "Gym"), ("date", some "2025-03-01")]
      false 5).state = "awaiting_confirm" :=
  (completeness_transition_spec staleCollecting
    [("task", some "Gym"), ("date", some "2025-03-01")] false 5 rfl).1.mpr (by decide)

/-- C5: a prune pass at instant `t` keeps a draft exactly when its idle time
is within its state's TTL (90 s for `collecting`, 5 min for
`awaiting_confirm`); a session whose filtered draft list is non-empty
survives the full pass; concretely, at 91 s of idleness a `collecting` draft
is removed while an `awaiting_confirm` draft is kept. -/
theorem prune_draft_ttl_spec :
    (∀ (t : Int) (s : Session) (d : DraftObj), d ∈ s.drafts →
      (d ∈ (pruneSessionDrafts t s).drafts ↔
        t - d.updatedAt ≤
          (if d.state = "awaiting_confirm" then CONFIRM_TTL_MS else DRAFT_TTL_MS))) ∧
    (∀ (t : Int) (sessions : List (String × Session)) (c : String) (s : Session),
      (c, s) ∈ sessions → (pruneSessionDrafts t s).drafts ≠ [] →
      (c, pruneSessionDrafts t s) ∈ pruneExpiredDrafts t sessions) ∧
    staleCollecting ∉ (pruneSessionDrafts 91000 prune91Session).drafts ∧
    staleAwaiting ∈ (pruneSessionDrafts 91000 prune91Session).drafts := by
  refine ⟨?_, ?_, by decide, by decide⟩
  · intro t s d hd
    simp only [pruneSessionDrafts, List.mem_filter, keepDraft]
    constructor
    · intro h
      exact of_decide_eq_true h.2
    · intro h
      exact ⟨hd, decide_eq_true h⟩
  · intro t sessions c s hmem hne
    refine List.mem_filter.mpr ⟨List.mem_map.mpr ⟨(c, s), hmem, rfl⟩, ?_⟩
    have : (pruneSessionDrafts t s).drafts.isEmpty = false := by
      cases hdr : (pruneSessionDrafts t s).drafts with
      | nil => exact absurd hdr hne
      | cons a l => rfl
    simp [this]

/-- Witness for C5: the 91-second-idle `awaiting_confirm` draft is kept by
the prune pass at t = 91000. -/
theorem prune_draft_ttl_spec_witness :
    staleAwaiting ∈ (pruneSessionDrafts 91000 prune91Session).drafts :=
  (prune_draft_ttl_spec.1 91000 prune91Session staleAwaiting (by decide)).mpr (by decide)

/-- Counterexample to C6: a session holding an active field-edit pointer but
no drafts, idle for just over 90 s, is deleted wholesale by a single prune
pass — its edit pointer does not survive, contradicting the claim that a
session holding a pointer still holds it after any prune pass regardless of
idle time. -/
theorem prune_deletes_pointer_session :
    pointerOnlySession.editingEventId = some 7 ∧
    pointerOnlySession.editingField = some "title" ∧
    pruneExpiredDrafts 90001 [("chat", pointerOnlySession)] = [] := by
  refine ⟨rfl, rfl, by decide⟩

/-- C6 (amended): a prune pass never alters the edit pointer or intake flag
of a session it retains — only the draft list is filtered — and a session is
dropped from the map exactly when its filtered draft list is empty and the
session itself has been idle longer than 90 s (in which case pointer and
flag are lost with it). -/
theorem prune_pointer_preserved_amended :
    ∀ (t : Int) (sessions : List (String × Session)) (c : String) (s : Session),
      (c, s) ∈ sessions →
      ((c, pruneSessionDrafts t s) ∈ pruneExpiredDrafts t sessions ↔
        ¬((pruneSessionDrafts t s).drafts = [] ∧ t - s.updatedAt > DRAFT_TTL_MS)) ∧
      (pruneSessionDrafts t s).editingEventId = s.editingEventId ∧
      (pruneSessionDrafts t s).editingField = s.editingField ∧
      (pruneSessionDrafts t s).addingClass = s.addingClass := by
  intro t sessions c s hmem
  refine ⟨?_, rfl, rfl, rfl⟩
  constructor
  · intro hin hcond
    have hpred := (List.mem_filter.mp hin).2
    have hempty : (pruneSessionDrafts t s).drafts.isEmpty = true := by
      rw [hcond.1]; rfl
    have hupd : (pruneSessionDrafts t s).updatedAt = s.updatedAt := rfl
    rw [hempty, hupd] at hpred
    simp [hcond.2] at hpred
  · intro hnot
    refine List.mem_filter.mpr ⟨List.mem_map.mpr ⟨(c, s), hmem, rfl⟩, ?_⟩
    by_cases he : (pruneSessionDrafts t s).drafts = []
    · have h2 : ¬ t - s.updatedAt > DRAFT_TTL_MS := fun h => hnot ⟨he, h⟩
      have hempty : (pruneSessionDrafts t s).drafts.isEmpty = true := by rw [he]; rfl
      have hupd : (pruneSessionDrafts t s).updatedAt = s.updatedAt := rfl
      rw [hempty, hupd]
      simp [h2]
    · have hempty : (pruneSessionDrafts t s).drafts.isEmpty = false := by
        cases hdr : (pruneSessionDrafts t s).drafts with
        | nil => exact absurd hdr he
        | cons a l => rfl
      rw [hempty]
      simp

/-- Witness for the amended C6: a session holding an edit pointer and one
fresh-enough draft survives the pass at t = 91000 with its pointer intact. -/
theorem prune_pointer_preserved_amended_witness :
    ("chat", pruneSessionDrafts 91000 pointerDraftSession) ∈
        pruneExpiredDrafts 91000 [("chat", pointerDraftSession)] ∧
    (pruneSessionDrafts 91000 pointerDraftSession).editingEventId = some 7 := by
  have h := prune_pointer_preserved_amended 91000 [("chat", pointerDraftSession)]
    "chat" pointerDraftSession (by decide)
  exact ⟨h.1.mpr (by decide), h.2.1⟩

lemma eventConflictItem_inj {a b : EventRow} (h : eventConflictItem a = eventConflictItem b) :
    a = b := by
  cases a
  cases b
  simp only [eventConflictItem, ConflictItem.mk.injEq, Option.some.injEq, and_true] at h
  simp [EventRow.mk.injEq]
  tauto

lemma timetableConflictItem_times {d : String} {a b : TimetableRow}
    (h : timetableConflictItem d a = timetableConflictItem d b) :
    a.start_time = b.start_time ∧ a.end_time = b.end_time := by
  simp only [timetableConflictItem, ConflictItem.mk.injEq, Option.some.injEq] at h
  exact ⟨by tauto, by tauto⟩

lemma conflict_sources_ne (ev : EventRow) (d : String) (en : TimetableRow) :
    timetableConflictItem d en ≠ eventConflictItem ev := by
  intro h
  have := congrArg ConflictItem.source h
  simp [timetableConflictItem, eventConflictItem] at this

/-- C1: `checkConflicts` returns the empty list when the candidate start time
is absent; otherwise an event row of the queried population (this chat, this
date, start time present) is flagged iff the half-open intervals overlap
strictly, a missing end time (candidate or event) defaulting to start + 60
minutes, and a timetable entry is flagged iff its interval overlaps the
candidate's; exact boundary touching is not a conflict. -/
theorem checkConflicts_overlap_spec :
    (∀ (chatId : String) (events : List EventRow) (school : List TimetableRow)
        (date : String) (endTime : Option String),
      checkConflicts chatId events school date none endTime = []) ∧
    (∀ (chatId : String) (events : List EventRow) (school : List TimetableRow)
        (date : String) (st : String) (endTime : Option String) (ev : EventRow),
      st ≠ "" → ev ∈ events → ev.chat_id = chatId → ev.date = date →
      ev.start_time.isSome = true →
      (eventConflictItem ev ∈ checkConflicts chatId events school date (some st) endTime ↔
        (timeToMinutes st <
            (match truthyVal ev.end_time with
             | some e => timeToMinutes e
             | none => timeToMinutes (ev.start_time.getD "") + 60) ∧
          timeToMinutes (ev.start_time.getD "") <
            (match truthyVal endTime with
             | some e => timeToMinutes e
             | none => timeToMinutes st + 60)))) ∧
    (∀ (chatId : String) (events : List EventRow) (school : List TimetableRow)
        (date : String) (st : String) (endTime : Option String) (en : TimetableRow),
      st ≠ "" → en ∈ school →
      (timetableConflictItem date en ∈
          checkConflicts chatId events school date (some st) endTime ↔
        (timeToMinutes st < timeToMinutes en.end_time ∧
          timeToMinutes en.start_time <
            (match truthyVal endTime with
             | some e => timeToMinutes e
             | none => timeToMinutes st + 60)))) ∧
    checkConflicts "c" [eventTenToEleven] [] "2025-04-10" (some "11:00") (some "12:00") = [] ∧
    checkConflicts "c" [eventTenToEleven] [] "2025-04-10" (some "10:30") (some "10:45") =
      [eventConflictItem eventTenToEleven] := by
  refine ⟨?_, ?_, ?_, by decide, by decide⟩
  · intro chatId events school date endTime
    rfl
  · intro chatId events school date st endTime ev hst hev hchat hdate hstart
    have hne : truthyVal (some st) = some st := by simp [truthyVal, hst]
    unfold checkConflicts
    rw [hne]
    simp only [List.mem_append, List.mem_map, List.mem_filter]
    constructor
    · rintro (⟨ev', ⟨⟨hev', hpre⟩, hov⟩, heq⟩ | ⟨en, hen, heq⟩)
      · have hee : ev' = ev := eventConflictItem_inj heq
        subst hee
        simpa [eventOverlaps, Bool.and_eq_true, decide_eq_true_eq] using hov
      · exact absurd heq (conflict_sources_ne ev date en)
    · intro hcond
      left
      refine ⟨ev, ⟨⟨hev, ?_⟩, ?_⟩, rfl⟩
      · simp [hchat, hdate, hstart]
      · simpa [eventOverlaps, Bool.and_eq_true, decide_eq_true_eq] using hcond
  · intro chatId events school date st endTime en hst hen
    have hne : truthyVal (some st) = some st := by simp [truthyVal, hst]
    unfold checkConflicts
    rw [hne]
    simp only [List.mem_append, List.mem_map, List.mem_filter]
    constructor
    · rintro (⟨ev', hev', heq⟩ | ⟨en', ⟨hen', hov⟩, heq⟩)
      · exact absurd heq.symm (conflict_sources_ne ev' date en)
      · have htimes := timetableConflictItem_times heq
        simp only [timetableOverlaps, Bool.and_eq_true, decide_eq_true_eq] at hov
        rw [htimes.1, htimes.2] at hov
        exact hov
    · intro hcond
      right
      refine ⟨en, ⟨hen, ?_⟩, rfl⟩
      simpa [timetableOverlaps, Bool.and_eq_true, decide_eq_true_eq] using hcond

/-- Witness for C1: the 10:30-10:45 candidate is flagged against the
10:00-11:00 event through the overlap characterization. -/
theorem checkConflicts_overlap_spec_witness :
    eventConflictItem eventTenToEleven ∈
      checkConflicts "c" [eventTenToEleven] [] "2025-04-10" (some "10:30") (some "10:45") :=
  (checkConflicts_overlap_spec.2.1 "c" [eventTenToEleven] [] "2025-04-10" "10:30"
    (some "10:45") eventTenToEleven (by decide) (by simp) rfl rfl rfl).mpr (by decide)

lemma hasJob_setJob_self (js : List (String × Int)) (k : String) (v : Int) :
    hasJob (setJob js k v) k = true := by
  unfold hasJob setJob
  by_cases hex : js.any (fun p => decide (p.1 = k)) = true
  · rw [if_pos hex]
    rcases List.any_eq_true.mp hex with ⟨p, hp, hpk⟩
    refine List.any_eq_true.mpr ⟨(k, v), ?_, by simp⟩
    refine List.mem_map.mpr ⟨p, hp, ?_⟩
    have hpk' : p.1 = k := of_decide_eq_true hpk
    simp [hpk']
  · rw [if_neg hex]
    exact List.any_eq_true.mpr ⟨(k, v), List.mem_append.mpr (Or.inr (by simp)), by simp⟩

lemma hasJob_setJob_other (js : List (String × Int)) {k k' : String} (v : Int)
    (h : k' ≠ k) : hasJob (setJob js k v) k' = hasJob js k' := by
  unfold hasJob setJob
  by_cases hex : js.any (fun p => decide (p.1 = k)) = true
  · rw [if_pos hex, List.any_map]
    congr 1
    funext p
    by_cases hpk : p.1 = k
    · simp [Function.comp, hpk]
    · simp [Function.comp, hpk]
  · rw [if_neg hex, List.any_append]
    have hkk : decide (k = k') = false := decide_eq_false (Ne.symm h)
    simp [hkk]

lemma mkJobKey_ne_of_len {id x y : Nat}
    (h : (toString x).length ≠ (toString y).length) : mkJobKey id x ≠ mkJobKey id y := by
  intro he
  apply h
  have hlen := congrArg String.length he
  simp only [mkJobKey, String.length_append] at hlen
  omega

lemma hasJob_ite_other {c : Prop} [Decidable c] (X : List (String × Int)) {k k' : String}
    (v : Int) (h : k' ≠ k) :
    hasJob (if c then setJob X k v else X) k' = hasJob X k' := by
  by_cases hc : c
  · rw [if_pos hc]; exact hasJob_setJob_other X v h
  · rw [if_neg hc]

lemma hasJob_ite_self {c : Prop} [Decidable c] (X : List (String × Int)) (k : String)
    (v : Int) :
    hasJob (if c then setJob X k v else X) k = (hasJob X k || decide c) := by
  by_cases hc : c
  · rw [if_pos hc, hasJob_setJob_self, decide_eq_true hc, Bool.or_true]
  · rw [if_neg hc, decide_eq_false hc, Bool.or_false]

lemma jobKey_1440_ne_360 {id : Nat} : mkJobKey id 1440 ≠ mkJobKey id 360 :=
  mkJobKey_ne_of_len (by decide)

lemma jobKey_1440_ne_30 {id : Nat} : mkJobKey id 1440 ≠ mkJobKey id 30 :=
  mkJobKey_ne_of_len (by decide)

lemma jobKey_360_ne_30 {id : Nat} : mkJobKey id 360 ≠ mkJobKey id 30 :=
  mkJobKey_ne_of_len (by decide)

/-- C7: `scheduleReminder` registers nothing when the event has no start
time; with a start time it registers, for each of the 1440/360/30-minute
lead times, a job under key `eventId-offset` exactly when that firing
instant is strictly in the future at scheduling time (others are silently
skipped); an event starting 10 minutes out registers zero reminders and one
starting 2 days out registers all three. -/
theorem scheduleReminder_spec :
    (∀ (pd : String → String → Int) (now : Int) (jobs : List (String × Int)) (ev : EventRow),
      truthyVal ev.start_time = none → scheduleReminder pd now jobs ev = jobs) ∧
    (∀ (pd : String → String → Int) (now : Int) (jobs : List (String × Int)) (ev : EventRow)
        (st : String),
      truthyVal ev.start_time = some st →
      ∀ off ∈ reminderOffsets,
        hasJob (scheduleReminder pd now jobs ev) (mkJobKey ev.id off) =
          (hasJob jobs (mkJobKey ev.id off) ||
            decide (pd ev.date st - (off : Int) * 60 * 1000 > now))) ∧
    scheduleReminder (fun _ _ => (600000 : Int)) 0 [] eventInTenMinutes = [] ∧
    hasJob (scheduleReminder (fun _ _ => (172800000 : Int)) 0 [] eventInTwoDays)
      (mkJobKey 9 1440) = true ∧
    hasJob (scheduleReminder (fun _ _ => (172800000 : Int)) 0 [] eventInTwoDays)
      (mkJobKey 9 360) = true ∧
    hasJob (scheduleReminder (fun _ _ => (172800000 : Int)) 0 [] eventInTwoDays)
      (mkJobKey 9 30) = true := by
  refine ⟨?_, ?_, by decide, by decide, by decide, by decide⟩
  · intro pd now jobs ev h
    unfold scheduleReminder
    rw [h]
  · intro pd now jobs ev st h off hoff
    unfold scheduleReminder
    rw [h]
    simp only [reminderOffsets, List.foldl_cons, List.foldl_nil]
    simp only [reminderOffsets, List.mem_cons, List.not_mem_nil, or_false] at hoff
    rcases hoff with rfl | rfl | rfl
    · rw [hasJob_ite_other _ _ jobKey_1440_ne_30, hasJob_ite_other _ _ jobKey_1440_ne_360,
        hasJob_ite_self]
    · rw [hasJob_ite_other _ _ jobKey_360_ne_30, hasJob_ite_self,
        hasJob_ite_other _ _ (Ne.symm jobKey_1440_ne_360)]
    · rw [hasJob_ite_self, hasJob_ite_other _ _ (Ne.symm jobKey_360_ne_30),
        hasJob_ite_other _ _ (Ne.symm jobKey_1440_ne_30)]

/-- Witness for C7: the 30-minute reminder of the event starting 10 minutes
out is not registered (its firing instant is already past). -/
theorem scheduleReminder_spec_witness :
    hasJob (scheduleReminder (fun _ _ => (600000 : Int)) 0 [] eventInTenMinutes)
      (mkJobKey eventInTenMinutes.id 30) = false := by
  have h := (scheduleReminder_spec.2.1 (fun _ _ => (600000 : Int)) 0 [] eventInTenMinutes
    "14:00" (by decide)) 30 (by decide)
  rw [h]
  decide

lemma normalizeAmPm_shape (cs : List Char) :
    normalizeAmPm cs = none ∨
      ∃ hh mm, hh ≤ 23 ∧ mm ≤ 59 ∧ normalizeAmPm cs = some (fmtHHMM hh mm) := by
  unfold normalizeAmPm
  rcases hm : matchAmPm cs with _ | ⟨h12, mm, isPm⟩
  · exact Or.inl rfl
  · simp only []
    by_cases hr : (if isPm = false ∧ (if isPm = true ∧ h12 ≠ 12 then h12 + 12 else h12) = 12
        then 0 else if isPm = true ∧ h12 ≠ 12 then h12 + 12 else h12) ≤ 23 ∧ mm ≤ 59
    · right
      exact ⟨_, mm, hr.1, hr.2, by rw [if_pos hr]⟩
    · left
      rw [if_neg hr]

/-- C8: `normalizeTime` is total and returns either `null` or a canonical
zero-padded in-range `"HH:MM"` string; it accepts `H:MM`/`HH:MM`, dots as
colons, and 12-hour am/pm forms with optional minutes, optional space and
either case (`12am -> 00:00`, `12pm -> 12:00`), and rejects out-of-range
hours/minutes after conversion as well as unrecognized shapes. -/
theorem normalizeTime_spec :
    (∀ s : String, normalizeTime s = none ∨
      ∃ hh mm, hh ≤ 23 ∧ mm ≤ 59 ∧ normalizeTime s = some (fmtHHMM hh mm)) ∧
    normalizeTime "9:00" = some "09:00" ∧
    normalizeTime "09:00" = some "09:00" ∧
    normalizeTime "9am" = some "09:00" ∧
    normalizeTime "9:00am" = some "09:00" ∧
    normalizeTime "9.00am" = some "09:00" ∧
    normalizeTime "12am" = some "00:00" ∧
    normalizeTime "12pm" = some "12:00" ∧
    normalizeTime "6:30pm" = some "18:30" ∧
    normalizeTime "6:30 PM" = some "18:30" ∧
    normalizeTime "25:00" = none ∧
    normalizeTime "9:75" = none ∧
    normalizeTime "13pm" = none ∧
    normalizeTime "abc" = none := by
  refine ⟨?_, by decide, by decide, by decide, by decide, by decide, by decide, by decide,
    by decide, by decide, by decide, by decide, by decide, by decide⟩
  intro s
  unfold normalizeTime
  by_cases hs : s = ""
  · rw [if_pos hs]
    exact Or.inl rfl
  · rw [if_neg hs]
    simp only []
    rcases hm : matchHHMM ((jsTrim s.data).map (fun c => if c = '.' then ':' else c)) with
      _ | ⟨hh, mm⟩
    · exact normalizeAmPm_shape _
    · simp only []
      by_cases hr : hh ≤ 23 ∧ mm ≤ 59
      · right
        exact ⟨hh, mm, hr.1, hr.2, by rw [if_pos hr]⟩
      · rw [if_neg hr]
        exact normalizeAmPm_shape _

lemma find_none_of_absent {drafts : List DraftObj} {did : String}
    (h : ∀ d ∈ drafts, d.id ≠ did) :
    drafts.find? (fun x => decide (x.id = did)) = none := by
  apply List.find?_eq_none.mpr
  intro x hx
  simp [h x hx]

lemma confirmAction_expired {chatId : String} {session : Session} {events : List EventRow}
    {school : List TimetableRow} {nextId : Nat} {draftId : String}
    (h : session.drafts.find? (fun x => decide (x.id = draftId)) = none) :
    confirmAction chatId session events school nextId draftId =
      ⟨session, events, "❌ Draft expired."⟩ := by
  unfold confirmAction
  rw [h]

lemma editAction_expired {session : Session} {events : List EventRow} {now : Int}
    {draftId : String}
    (h : session.drafts.find? (fun x => decide (x.id = draftId)) = none) :
    editAction session events now draftId = ⟨session, events, "❌ Draft expired."⟩ := by
  unfold editAction
  rw [h]

lemma discardAction_expired {session : Session} {events : List EventRow} {draftId : String}
    (h : session.drafts.find? (fun x => decide (x.id = draftId)) = none) :
    discardAction session events draftId = ⟨session, events, "❌ Draft expired."⟩ := by
  unfold discardAction
  rw [h]

lemma conflictKeepAction_expired {chatId : String} {session : Session}
    {events : List EventRow} {nextId : Nat} {draftId : String}
    (h : session.drafts.find? (fun x => decide (x.id = draftId)) = none) :
    conflictKeepAction chatId session events nextId draftId =
      ⟨session, events, "❌ Draft expired."⟩ := by
  unfold conflictKeepAction
  rw [h]

lemma conflictReplaceAction_expired {chatId : String} {session : Session}
    {events : List EventRow} {school : List TimetableRow} {nextId : Nat} {draftId : String}
    (h : session.drafts.find? (fun x => decide (x.id = draftId)) = none) :
    conflictReplaceAction chatId session events school nextId draftId =
      ⟨session, events, "❌ Draft expired."⟩ := by
  unfold conflictReplaceAction
  rw [h]

lemma conflictCancelAction_expired {session : Session} {events : List EventRow} {now : Int}
    {draftId : String}
    (h : session.drafts.find? (fun x => decide (x.id = draftId)) = none) :
    conflictCancelAction session events now draftId =
      ⟨session, events, "❌ Draft expired."⟩ := by
  unfold conflictCancelAction
  rw [h]

lemma isPrefixOf_false_of_other {l p q : List Char}
    (hp : p.isPrefixOf l = true) (h1 : ¬ q <+: p) (h2 : ¬ p <+: q) :
    q.isPrefixOf l = false := by
  cases hq : q.isPrefixOf l with
  | false => rfl
  | true =>
    exfalso
    rw [List.isPrefixOf_iff_prefix] at hp hq
    rcases List.prefix_or_prefix_of_prefix hq hp with h | h
    · exact h1 h
    · exact h2 h

/-- C9: any of the six draft button actions whose payload names a draft id
absent from the session answers "Draft expired." and mutates nothing: the
session (draft list, every draft's state and fields, edit pointer, intake
flag) and the persisted event store come back unchanged. -/
theorem stale_draft_action_spec :
    ∀ (chatId data : String) (session : Session) (events : List EventRow)
      (school : List TimetableRow) (now : Int) (nextId : Nat),
      (strStartsWith data "confirm:" = true ∨ strStartsWith data "edit:" = true ∨
        strStartsWith data "discard:" = true ∨ strStartsWith data "conflict_keep:" = true ∨
        strStartsWith data "conflict_replace:" = true ∨
        strStartsWith data "conflict_cancel:" = true) →
      (∀ d ∈ session.drafts, d.id ≠ payloadId data) →
      handleDraftCallback chatId data session events school now nextId =
        ⟨session, events, "❌ Draft expired."⟩ := by
  intro chatId data session events school now nextId hpre habs
  have hfind := find_none_of_absent habs
  unfold handleDraftCallback
  rcases hpre with h | h | h | h | h | h
  · rw [if_pos h]
    exact confirmAction_expired hfind
  · have h1 : strStartsWith data "confirm:" = false :=
      isPrefixOf_false_of_other h (by decide) (by decide)
    simp only [h1, Bool.false_eq_true, if_false]
    rw [if_pos h]
    exact editAction_expired hfind
  · have h1 : strStartsWith data "confirm:" = false :=
      isPrefixOf_false_of_other h (by decide) (by decide)
    have h2 : strStartsWith data "edit:" = false :=
      isPrefixOf_false_of_other h (by decide) (by decide)
    simp only [h1, h2, Bool.false_eq_true, if_false]
    rw [if_pos h]
    exact discardAction_expired hfind
  · have h1 : strStartsWith data "confirm:" = false :=
      isPrefixOf_false_of_other h (by decide) (by decide)
    have h2 : strStartsWith data "edit:" = false :=
      isPrefixOf_false_of_other h (by decide) (by decide)
    have h3 : strStartsWith data "discard:" = false :=
      isPrefixOf_false_of_other h (by decide) (by decide)
    simp only [h1, h2, h3, Bool.false_eq_true, if_false]
    rw [if_pos h]
    exact conflictKeepAction_expired hfind
  · have h1 : strStartsWith data "confirm:" = false :=
      isPrefixOf_false_of_other h (by decide) (by decide)
    have h2 : strStartsWith data "edit:" = false :=
      isPrefixOf_false_of_other h (by decide) (by decide)
    have h3 : strStartsWith data "discard:" = false :=
      isPrefixOf_false_of_other h (by decide) (by decide)
    have h4 : strStartsWith data "conflict_keep:" = false :=
      isPrefixOf_false_of_other h (by decide) (by decide)
    simp only [h1, h2, h3, h4, Bool.false_eq_true, if_false]
    rw [if_pos h]
    exact conflictReplaceAction_expired hfind
  · have h1 : strStartsWith data "confirm:" = false :=
      isPrefixOf_false_of_other h (by decide) (by decide)
    have h2 : strStartsWith data "edit:" = false :=
      isPrefixOf_false_of_other h (by decide) (by decide)
    have h3 : strStartsWith data "discard:" = false :=
      isPrefixOf_false_of_other h (by decide) (by decide)
    have h4 : strStartsWith data "conflict_keep:" = false :=
      isPrefixOf_false_of_other h (by decide) (by decide)
    have h5 : strStartsWith data "conflict_replace:" = false :=
      isPrefixOf_false_of_other h (by decide) (by decide)
    simp only [h1, h2, h3, h4, h5, Bool.false_eq_true, if_false]
    rw [if_pos h]
    exact conflictCancelAction_expired hfind

/-- Witness for C9: a discard action naming draft id "9" against a session
holding only drafts with ids "1" and "2" reports expiry and changes nothing. -/
theorem stale_draft_action_spec_witness :
    handleDraftCallback "c" "discard:9" prune91Session [eventTenToEleven] [] 0 5 =
      ⟨prune91Session, [eventTenToEleven], "❌ Draft expired."⟩ :=
  stale_draft_action_spec "c" "discard:9" prune91Session [eventTenToEleven] [] 0 5
    (Or.inr (Or.inr (Or.inl (by decide)))) (by decide)

/-- Witness for C2: a differing date arriving at a draft that already has a
title and a date forks a new draft. -/
theorem shouldStartNewDraft_spec_witness :
    shouldStartNewDraftFromUpdate
      { makeEmptyDraft with task := some "Gym", date := some "2025-03-01" }
      [("date", some "2025-03-05")] false = true :=
  (shouldStartNewDraft_spec
    { makeEmptyDraft with task := some "Gym", date := some "2025-03-01" }
    [("date", some "2025-03-05")] false).1.mpr
    ⟨rfl, Or.inl ⟨by decide, by decide, Or.inl (by decide), by decide⟩⟩

/-- Witness for C8: the 12-hour midnight form maps to canonical 00:00. -/
theorem normalizeTime_spec_witness :
    normalizeTime "12am" = some "00:00" :=
  normalizeTime_spec.2.2.2.2.2.2.1

/-- Witness for C10: repeating a concrete merge leaves the draft unchanged. -/
theorem mergeDraft_idem_skips_witness :
    mergeDraft (mergeDraft makeEmptyDraft [("task", some "Gym")] false false)
      [("task", some "Gym")] false false =
      mergeDraft makeEmptyDraft [("task", some "Gym")] false false :=
  (mergeDraft_idem_skips makeEmptyDraft [("task", some "Gym")] false false).1
